import Mathlib

/-!
Shallow embedding of the room/session core of a trivia party-game server
(source: src/server.js, a Node.js socket server).

Modelling conventions:
* A JavaScript `Map` is an insertion-ordered association list
  (`List (key × value)`); `Map.set` on an existing key updates the value in
  place (keeping its position), on a fresh key it appends; `Map.delete`
  removes the entry; iteration is in list order.  These are exactly the
  semantics guaranteed for JS `Map`.
* JS numbers are modelled with exact arithmetic (`Nat`/`Int`/`ℚ`).  All
  integer quantities in the program stay far below 2^53, where doubles are
  exact; the one genuinely fractional computation (the time-bonus score) is
  modelled over `ℚ`, and the double-precision evaluation of
  `Math.floor(100 + (max(0, 15000 - elapsed) / 1000) * 10)` agrees with the
  exact rational evaluation for every integer `elapsed` in the meaningful
  range.
* Randomness (`Math.random` in `generateRoomCode` and in the question
  shuffle) and the clock (`Date.now()`) are oracle parameters of the
  functions that consume them.
* `socket.emit` / `io.to(x).emit` calls are collected into an explicit list
  of emissions; `setTimeout(... nextQuestion(roomCode) ..., d)` calls are
  collected into an explicit list of scheduled timers.
* JS truthiness tests are modelled faithfully: `if (room.buzzedPlayer)` is
  true exactly when `buzzedPlayer` is a non-empty string (`null` and `""`
  are both falsy); `avatar || defaultAvatar` yields the default exactly when
  `avatar` is the empty string.
-/

namespace GameNight

/-- JS Map membership test (`m.has(k)`).  A JS `Map` holds at most one entry
per key, so the first match decides. -/
def jsHas {α β : Type} [DecidableEq α] (m : List (α × β)) (k : α) : Bool :=
  match m with
  | [] => false
  | p :: ps => p.1 = k || jsHas ps k

/-- JS Map lookup (`m.get(k)`), `none` standing for `undefined`. -/
def jsGet {α β : Type} [DecidableEq α] (m : List (α × β)) (k : α) : Option β :=
  match m with
  | [] => none
  | p :: ps => if p.1 = k then some p.2 else jsGet ps k

/-- JS Map update (`m.set(k, v)`): an existing key keeps its position and
gets the new value; a fresh key is appended at the end. -/
def jsSet {α β : Type} [DecidableEq α] (m : List (α × β)) (k : α) (v : β) :
    List (α × β) :=
  match m with
  | [] => [(k, v)]
  | p :: ps => if p.1 = k then (k, v) :: ps else p :: jsSet ps k v

/-- JS Map deletion (`m.delete(k)`): removes the entry for `k`, if any. -/
def jsDelete {α β : Type} [DecidableEq α] (m : List (α × β)) (k : α) :
    List (α × β) :=
  match m with
  | [] => []
  | p :: ps => if p.1 = k then ps else p :: jsDelete ps k

/-- JS Map size (`m.size`); keys are unique in every map the server builds. -/
def jsSize {α β : Type} (m : List (α × β)) : Nat := m.length

/-- JS Map value view (`Array.from(m.values())`). -/
def jsValues {α β : Type} (m : List (α × β)) : List β := m.map Prod.snd

/-- JS truthiness of a nullable string: `null` and `""` are falsy, every
other string is truthy. -/
def truthyStr : Option String → Bool
  | none => false
  | some s => s ≠ ""

/-- JS `toUpperCase()`, character by character (room codes are ASCII, where
this agrees with the JS definition). -/
def jsToUpper (s : String) : String := String.mk (s.data.map Char.toUpper)

/-- Player record as built by the `join_room` handler. -/
structure Player where
  id : String
  name : String
  avatar : String
  socketId : String
  score : Nat
deriving Repr, DecidableEq

/-- Trivia item: prompt, correct answer, choices (from `triviaQuestions`). -/
structure Question where
  q : String
  a : String
  choices : List String
deriving Repr, DecidableEq

/-- Answer record stored in `room.answers` by the `submit_answer` handler. -/
structure AnswerRecord where
  answer : String
  correct : Bool
  points : Nat
deriving Repr, DecidableEq

/-- Room lifecycle state. -/
inductive GameState where
  | LOBBY
  | PLAYING
  | ROUND_END
deriving Repr, DecidableEq

/-- Room state, mirroring the object literal in `createRoom`. -/
structure Room where
  code : String
  host : String
  players : List (String × Player)
  gameState : GameState
  currentGame : Option String
  currentQuestion : Option Question
  questionNumber : Nat
  buzzedPlayer : Option String
  answers : List (String × AnswerRecord)
  questionStartTime : Option Nat
deriving Repr, DecidableEq

/-- The process-wide `rooms` map. -/
abbrev Registry : Type := List (String × Room)

/-- Emissions performed by the handlers (`socket.emit` and
`io.to(target).emit`); targets are socket ids or room-code channels. -/
inductive Emit where
  | errorMsg (target : String) (message : String)
  | playerJoined (target : String) (p : Player)
  | playerList (target : String) (ps : List Player)
  | joinedRoom (target : String) (roomCode : String) (ps : List Player)
  | gameStarted (target : String) (game : String)
  | roundEnd (target : String) (leaderboard : List Player)
  | newQuestionFull (target : String) (questionNumber : Nat) (question : Question)
  | newQuestionRedacted (target : String) (questionNumber : Nat)
      (prompt : String) (choices : List String)
  | playerBuzzed (target : String) (playerId : String) (playerName : String)
  | answerResult (target : String) (correct : Bool) (points : Nat)
      (correctAnswer : String) (totalScore : Nat)
  | answerSubmitted (target : String) (playerId : String) (playerName : String)
      (correct : Bool) (points : Nat) (answer : String)
  | playerLeft (target : String) (playerId : String)
  | roomClosed (target : String)
deriving Repr, DecidableEq

/-- Deferred call scheduled with `setTimeout`: both such calls in the source
invoke `nextQuestion(roomCode)` after a fixed delay in milliseconds. -/
inductive Timer where
  | next (roomCode : String) (delayMs : Nat)
deriving Repr, DecidableEq

/-- Adjective pool of `generateRoomCode`. -/
def adjectives : List String :=
  ["COOL", "FAST", "MEGA", "EPIC", "WILD", "FIRE", "STAR", "BOLT", "DASH", "ZOOM"]

/-- Room-code generator; the two random draws are oracle parameters:
`adjIdx` selects the adjective, `num` is `Math.floor(1000 + Math.random() * 9000)`
(a value in 1000..9999). -/
def generateRoomCode (adjIdx : Fin 10) (num : Nat) : String :=
  (adjectives.getD adjIdx.val "") ++ "-" ++ toString num

/-- Fresh room object built by `createRoom`. -/
def freshRoom (code : String) (hostSocketId : String) : Room :=
  { code := code
    host := hostSocketId
    players := []
    gameState := GameState.LOBBY
    currentGame := none
    currentQuestion := none
    questionNumber := 0
    buzzedPlayer := none
    answers := []
    questionStartTime := none }

/-- The `createRoom` function: builds a fresh LOBBY room and stores it with
`rooms.set(code, room)` unconditionally — there is no collision check or
retry, so an existing room under the same code is silently replaced.  The
randomly generated code is an oracle parameter. -/
def createRoom (rooms : Registry) (code : String) (hostSocketId : String) :
    Registry × Room :=
  let room := freshRoom code hostSocketId
  (jsSet rooms code room, room)

/-- Avatar used when the client-supplied avatar is falsy (stands for the
emoji literal in the source). -/
def defaultAvatar : String := "GAME-EMOJI"

/-- Error message of the `join_room` handler. -/
def msgRoomNotFound : String := "Room not found"

/-- Error message of the `start_game` handler. -/
def msgNotAuthorized : String := "Not authorized"

/-- Payload of a `join_room` event. -/
structure JoinData where
  roomCode : String
  playerId : String
  playerName : String
  avatar : String
deriving Repr, DecidableEq

/-- The `join_room` handler: looks the room up under the UPPERCASED code,
errors to the sender if absent, otherwise overwrites the player entry
(score 0) and emits the three notifications.  Channel names keep the
original casing of the supplied code, exactly as in the source. -/
def joinRoom (rooms : Registry) (socketId : String) (d : JoinData) :
    Registry × List Emit :=
  match jsGet rooms (jsToUpper d.roomCode) with
  | none => (rooms, [Emit.errorMsg socketId msgRoomNotFound])
  | some room =>
    let player : Player :=
      { id := d.playerId
        name := d.playerName
        avatar := if d.avatar = "" then defaultAvatar else d.avatar
        socketId := socketId
        score := 0 }
    let room2 := { room with players := jsSet room.players d.playerId player }
    let rooms2 := jsSet rooms (jsToUpper d.roomCode) room2
    (rooms2,
      [Emit.playerJoined room.host player,
       Emit.playerList d.roomCode (jsValues room2.players),
       Emit.joinedRoom socketId d.roomCode (jsValues room2.players)])

/-- The `start_game` handler: looks the room up under the code EXACTLY as
supplied (no `toUpperCase()` here, unlike `join_room`); errors to the sender
unless the room exists and the sender is its host; otherwise sets the game,
enters PLAYING, resets `questionNumber` and every score to 0, emits
`game_started` to the room channel and schedules the first question after
2000 ms. -/
def startGame (rooms : Registry) (socketId : String) (roomCode : String)
    (game : String) : Registry × List Emit × List Timer :=
  match jsGet rooms roomCode with
  | none => (rooms, [Emit.errorMsg socketId msgNotAuthorized], [])
  | some room =>
    if room.host = socketId then
      let room2 : Room :=
        { room with
          currentGame := some game
          gameState := GameState.PLAYING
          questionNumber := 0
          players := room.players.map (fun p => (p.1, { p.2 with score := 0 })) }
      (jsSet rooms roomCode room2, [Emit.gameStarted roomCode game],
        [Timer.next roomCode 2000])
    else
      (rooms, [Emit.errorMsg socketId msgNotAuthorized], [])

/-- Stable insertion of a player into a list, placing it after every element
of strictly larger score and before the first element of smaller-or-equal
score: the insertion step of a stable sort by descending score, matching the
JS stable `Array.sort((a, b) => b.score - a.score)`. -/
def insertDesc (p : Player) : List Player → List Player
  | [] => [p]
  | q :: qs => if p.score < q.score then q :: insertDesc p qs else p :: q :: qs

/-- Stable sort of the player list by descending score (the leaderboard
computation of `nextQuestion`): JS `Array.sort` is guaranteed stable, and
the comparator `b.score - a.score` orders by descending score. -/
def sortDesc : List Player → List Player
  | [] => []
  | p :: ps => insertDesc p (sortDesc ps)

/-- The `nextQuestion` function.  Oracles: `question` is the random draw
`getRandomQuestions(1)[0]`, `now` is `Date.now()`.  No-op when the room no
longer exists.  Otherwise increments `questionNumber`; past 5 questions it
enters ROUND_END and emits the leaderboard (note: `currentQuestion` is NOT
cleared on this path); otherwise installs the fresh question, clears
`buzzedPlayer` and `answers`, stamps `questionStartTime`, and emits the full
question to the host and the redacted question to every player socket. -/
def nextQuestion (rooms : Registry) (roomCode : String) (question : Question)
    (now : Nat) : Registry × List Emit :=
  match jsGet rooms roomCode with
  | none => (rooms, [])
  | some room =>
    let room1 := { room with questionNumber := room.questionNumber + 1 }
    if 5 < room1.questionNumber then
      let room2 := { room1 with gameState := GameState.ROUND_END }
      let leaderboard := sortDesc (jsValues room2.players)
      (jsSet rooms roomCode room2, [Emit.roundEnd roomCode leaderboard])
    else
      let room2 : Room :=
        { room1 with
          currentQuestion := some question
          buzzedPlayer := none
          answers := []
          questionStartTime := some now }
      (jsSet rooms roomCode room2,
        Emit.newQuestionFull room.host room2.questionNumber question ::
          (jsValues room2.players).map (fun p =>
            Emit.newQuestionRedacted p.socketId room2.questionNumber
              question.q question.choices))

/-- Linear scan shared by `buzz_in` and `submit_answer`: the first room, in
registry insertion order, whose player map contains the player id. -/
def findPlayerRoom (rooms : Registry) (playerId : String) :
    Option (String × Room) :=
  List.find? (fun p => jsHas p.2.players playerId) rooms

/-- The `buzz_in` handler: silently returns if no room contains the player
or if `room.buzzedPlayer` is truthy (a non-empty string — note that the
source tests JS truthiness, not null-ness); otherwise records the buzzer and
emits `player_buzzed` to the room channel and to the host. -/
def buzzIn (rooms : Registry) (playerId : String) : Registry × List Emit :=
  match findPlayerRoom rooms playerId with
  | none => (rooms, [])
  | some (roomCode, room) =>
    if truthyStr room.buzzedPlayer then (rooms, [])
    else
      let pname := match jsGet room.players playerId with
        | some p => p.name
        | none => ""
      let room2 := { room with buzzedPlayer := some playerId }
      (jsSet rooms roomCode room2,
        [Emit.playerBuzzed roomCode playerId pname,
         Emit.playerBuzzed room.host playerId pname])

/-- Points computation of `submit_answer`:
`Math.floor(100 + (Math.max(0, 15000 - timeElapsed) / 1000) * 10)` when the
answer is correct, 0 otherwise, with exact rational arithmetic standing in
for JS doubles (they agree at every integer `elapsed` in range). -/
def awardedPoints (correct : Bool) (elapsed : Int) : Nat :=
  if correct then
    (Int.floor ((100 : ℚ) + max 0 (15000 - (elapsed : ℚ)) / 1000 * 10)).toNat
  else 0

/-- The `submit_answer` handler.  Oracle: `now` is `Date.now()`.  Silently
returns when no room contains the player or `currentQuestion` is null.
Otherwise: correctness is exact equality with the stored answer; points are
time-decayed; a correct answer adds the points to the player's score; the
`{answer, correct, points}` record overwrites any prior entry for the player
in `room.answers`; the result is emitted privately to the sender and to the
host; and when the submitter is the buzzed player or every player has now
answered, a `nextQuestion` timer is scheduled after 3000 ms.  A null
`questionStartTime` coerces to 0 in the JS subtraction. -/
def submitAnswer (rooms : Registry) (socketId : String) (playerId : String)
    (answer : String) (now : Nat) : Registry × List Emit × List Timer :=
  match findPlayerRoom rooms playerId with
  | none => (rooms, [], [])
  | some (roomCode, room) =>
    match room.currentQuestion with
    | none => (rooms, [], [])
    | some question =>
      match jsGet room.players playerId with
      | none => (rooms, [], [])
      | some player =>
        let correct : Bool := answer = question.a
        let timeElapsed : Int := (now : Int) - (room.questionStartTime.getD 0 : Int)
        let points := awardedPoints correct timeElapsed
        let player2 := if correct then { player with score := player.score + points } else player
        let players2 := if correct then jsSet room.players playerId player2 else room.players
        let answers2 := jsSet room.answers playerId
          { answer := answer, correct := correct, points := points }
        let room2 := { room with players := players2, answers := answers2 }
        let timers := if room.buzzedPlayer = some playerId ∨ jsSize answers2 = jsSize players2
          then [Timer.next roomCode 3000] else []
        (jsSet rooms roomCode room2,
          [Emit.answerResult socketId correct points question.a player2.score,
           Emit.answerSubmitted room.host playerId player.name correct points answer],
          timers)

/-- Inner loop of the disconnect handler for a non-host room: remove the
FIRST player (in insertion order) whose socket matches, then break. -/
def removeFirstBySocket (players : List (String × Player)) (socketId : String) :
    List (String × Player) × Option String :=
  match players with
  | [] => ([], none)
  | p :: ps =>
    if p.2.socketId = socketId then (ps, some p.1)
    else
      let rest := removeFirstBySocket ps socketId
      (p :: rest.1, rest.2)

/-- Per-room step of the disconnect handler: a room hosted by the closing
socket is deleted (after a `room_closed` broadcast); any other room has its
first matching player removed and the host notified.  Note the source's
outer loop has NO break: every room in the registry is processed. -/
def disconnectStep (socketId : String) (acc : Registry × List Emit)
    (entry : String × Room) : Registry × List Emit :=
  if entry.2.host = socketId then
    (acc.1, acc.2 ++ [Emit.roomClosed entry.1])
  else
    match removeFirstBySocket entry.2.players socketId with
    | (_, none) => (acc.1 ++ [entry], acc.2)
    | (players2, some pid) =>
        (acc.1 ++ [(entry.1, { entry.2 with players := players2 })],
         acc.2 ++ [Emit.playerLeft entry.2.host pid])

/-- The disconnect handler: iterate over ALL rooms in insertion order,
applying `disconnectStep` to each. -/
def disconnect (rooms : Registry) (socketId : String) : Registry × List Emit :=
  rooms.foldl (disconnectStep socketId) ([], [])

/-! Concrete data used by witnesses and counterexamples. -/

def hostSock : String := "H1"

def hostSock2 : String := "H2"

def sockP1 : String := "S1"

def sockP2 : String := "S2"

def codeMain : String := "COOL-1000"

def codeMainLower : String := "cool-1000"

def codeSecond : String := "FAST-2000"

def pidOne : String := "p1"

def pidTwo : String := "p2"

def pidThree : String := "p3"

def pidEmpty : String := ""

def nameA : String := "Alice"

def nameB : String := "Bob"

def nameC : String := "Cara"

def nameE : String := "Empty"

def avA : String := "AV"

def gameTrivia : String := "trivia"

def ansRight : String := "ans"

def ansWrong : String := "nope"

def qMain : Question := { q := "Q1", a := "ans", choices := ["ans", "other"] }

def playerOne : Player :=
  { id := "p1", name := "Alice", avatar := "AV", socketId := "S1", score := 0 }

def playerTwo : Player :=
  { id := "p2", name := "Bob", avatar := "AV", socketId := "S2", score := 0 }

def playerOneS : Player :=
  { id := "p1", name := "Alice", avatar := "AV", socketId := "S1", score := 240 }

def playerTwoS : Player :=
  { id := "p2", name := "Bob", avatar := "AV", socketId := "S2", score := 240 }

/-- Mid-round room: question live, player one buzzed, no answers yet. -/
def roomMain : Room :=
  { code := codeMain
    host := hostSock
    players := [(pidOne, playerOne), (pidTwo, playerTwo)]
    gameState := GameState.PLAYING
    currentGame := some gameTrivia
    currentQuestion := some qMain
    questionNumber := 1
    buzzedPlayer := some pidOne
    answers := []
    questionStartTime := some 5000 }

def regMain : Registry := [(codeMain, roomMain)]

/-- Room at question five: the next `nextQuestion` call ends the round. -/
def roomEnd : Room :=
  { code := codeMain
    host := hostSock
    players := [(pidOne, playerOneS), (pidTwo, playerTwoS)]
    gameState := GameState.PLAYING
    currentGame := some gameTrivia
    currentQuestion := some qMain
    questionNumber := 5
    buzzedPlayer := none
    answers := []
    questionStartTime := some 1000 }

def regEnd : Registry := [(codeMain, roomEnd)]

def joinOne : JoinData :=
  { roomCode := codeMain, playerId := pidOne, playerName := nameA, avatar := avA }

def joinOneLower : JoinData :=
  { roomCode := codeMainLower, playerId := pidOne, playerName := nameA, avatar := avA }

def joinTwo : JoinData :=
  { roomCode := codeMain, playerId := pidTwo, playerName := nameB, avatar := avA }

def joinEmpty : JoinData :=
  { roomCode := codeMain, playerId := pidEmpty, playerName := nameE, avatar := avA }

def joinThreeSecond : JoinData :=
  { roomCode := codeSecond, playerId := pidThree, playerName := nameC, avatar := avA }

/-- Registry holding one freshly created room under its uppercase code. -/
def c6Reg : Registry := (createRoom [] codeMain hostSock).1

/-! Trace for C3: create, join, start, then six `nextQuestion` calls; the
sixth tips `questionNumber` past 5 and ends the round. -/

def c3Reg1 : Registry := (createRoom [] codeMain hostSock).1

def c3Reg2 : Registry := (joinRoom c3Reg1 sockP1 joinOne).1

def c3Reg3 : Registry := (startGame c3Reg2 hostSock codeMain gameTrivia).1

def c3Reg4 : Registry := (nextQuestion c3Reg3 codeMain qMain 1000).1

def c3Reg5 : Registry := (nextQuestion c3Reg4 codeMain qMain 2000).1

def c3Reg6 : Registry := (nextQuestion c3Reg5 codeMain qMain 3000).1

def c3Reg7 : Registry := (nextQuestion c3Reg6 codeMain qMain 4000).1

def c3Reg8 : Registry := (nextQuestion c3Reg7 codeMain qMain 5000).1

def c3Reg9 : Registry := (nextQuestion c3Reg8 codeMain qMain 6000).1

/-! Trace for C4: a player whose id is the empty string buzzes first; the
lock `if (room.buzzedPlayer)` then sees a falsy value. -/

def c4Reg1 : Registry := (createRoom [] codeMain hostSock).1

def c4Reg2 : Registry := (joinRoom c4Reg1 sockP1 joinEmpty).1

def c4Reg3 : Registry := (joinRoom c4Reg2 sockP2 joinTwo).1

def c4Reg4 : Registry := (buzzIn c4Reg3 pidEmpty).1

/-! Trace for C8: one socket is a player in two different rooms. -/

def c8Reg1 : Registry := (createRoom [] codeMain hostSock).1

def c8Reg2 : Registry := (createRoom c8Reg1 codeSecond hostSock2).1

def c8Reg3 : Registry := (joinRoom c8Reg2 sockP1 joinOne).1

def c8Reg4 : Registry := (joinRoom c8Reg3 sockP1 joinThreeSecond).1

/-- Player three as stored by the C8 trace join (socket shared with player
one). -/
def playerThreeJ : Player :=
  { id := pidThree, name := nameC, avatar := avA, socketId := sockP1, score := 0 }

/-- Second room of the C8 trace after player three joined it. -/
def roomC8second : Room :=
  { code := codeSecond
    host := hostSock2
    players := [(pidThree, playerThreeJ)]
    gameState := GameState.LOBBY
    currentGame := none
    currentQuestion := none
    questionNumber := 0
    buzzedPlayer := none
    answers := []
    questionStartTime := none }

/-! Trace for C9: a player scores 240, then re-joins under the same id. -/

def c9Reg1 : Registry := (createRoom [] codeMain hostSock).1

def c9Reg2 : Registry := (joinRoom c9Reg1 sockP1 joinOne).1

def c9Reg3 : Registry := (startGame c9Reg2 hostSock codeMain gameTrivia).1

def c9Reg4 : Registry := (nextQuestion c9Reg3 codeMain qMain 5000).1

def c9Reg5 : Registry := (submitAnswer c9Reg4 sockP1 pidOne ansRight 6000).1

def c9Reg6 : Registry := (joinRoom c9Reg5 sockP1 joinOne).1

def playerOneJ : Player :=
  { id := pidOne, name := nameA, avatar := avA, socketId := sockP1, score := 0 }

def playerOneJ240 : Player :=
  { id := pidOne, name := nameA, avatar := avA, socketId := sockP1, score := 240 }

/-- Room state reached in the C9 trace right before the answer submission. -/
def roomC9 : Room :=
  { code := codeMain
    host := hostSock
    players := [(pidOne, playerOneJ)]
    gameState := GameState.PLAYING
    currentGame := some gameTrivia
    currentQuestion := some qMain
    questionNumber := 1
    buzzedPlayer := none
    answers := []
    questionStartTime := some 5000 }

/-- Room state reached in the C9 trace right after the answer submission:
player one earned 240 points and the answer record is stored. -/
def roomC9after : Room :=
  { code := codeMain
    host := hostSock
    players := [(pidOne, playerOneJ240)]
    gameState := GameState.PLAYING
    currentGame := some gameTrivia
    currentQuestion := some qMain
    questionNumber := 1
    buzzedPlayer := none
    answers := [(pidOne, { answer := ansRight, correct := true, points := 240 })]
    questionStartTime := some 5000 }

section MapLemmas

variable {α β : Type} [DecidableEq α]

theorem jsHas_of_jsGet {m : List (α × β)} {k : α} {v : β}
    (h : jsGet m k = some v) : jsHas m k = true := by
  induction m with
  | nil => simp [jsGet] at h
  | cons p ps ih =>
    by_cases hp : p.1 = k
    · simp [jsHas, hp]
    · simp only [jsGet, if_neg hp] at h
      simp [jsHas, hp, ih h]

theorem jsGet_none_of_has_false {m : List (α × β)} {k : α}
    (h : jsHas m k = false) : jsGet m k = none := by
  induction m with
  | nil => simp [jsGet]
  | cons p ps ih =>
    simp only [jsHas, Bool.or_eq_false_iff, decide_eq_false_iff_not] at h
    simp [jsGet, h.1, ih h.2]

theorem jsGet_jsSet_self (m : List (α × β)) (k : α) (v : β) :
    jsGet (jsSet m k v) k = some v := by
  induction m with
  | nil => simp [jsSet, jsGet]
  | cons p ps ih =>
    by_cases hp : p.1 = k
    · simp [jsSet, hp, jsGet]
    · simp [jsSet, hp, jsGet, ih]

theorem mem_keys_of_jsHas {m : List (α × β)} {k : α} (h : jsHas m k = true) :
    k ∈ m.map Prod.fst := by
  induction m with
  | nil => simp [jsHas] at h
  | cons p ps ih =>
    simp only [jsHas, Bool.or_eq_true, decide_eq_true_eq] at h
    rcases h with h1 | h2
    · simp [h1]
    · simp [ih h2]

theorem jsGet_jsSet_ne (m : List (α × β)) {k k' : α} (v : β) (h : ¬ k' = k) :
    jsGet (jsSet m k v) k' = jsGet m k' := by
  have h2 : ¬ k = k' := fun hh => h hh.symm
  induction m with
  | nil => simp [jsSet, jsGet, h2]
  | cons p ps ih =>
    by_cases hp : p.1 = k
    · simp [jsSet, hp, jsGet, h2]
    · by_cases hp' : p.1 = k'
      · simp [jsSet, hp, jsGet, hp', h, h2]
      · simp [jsSet, hp, jsGet, hp', h, h2, ih]

theorem jsSize_jsSet (m : List (α × β)) (k : α) (v : β) :
    jsSize (jsSet m k v) = if jsHas m k then jsSize m else jsSize m + 1 := by
  induction m with
  | nil => simp [jsSet, jsSize, jsHas]
  | cons p ps ih =>
    by_cases hp : p.1 = k
    · simp [jsSet, hp, jsSize, jsHas]
    · have h1 : jsHas (p :: ps) k = jsHas ps k := by simp [jsHas, hp]
      have h2 : jsSet (p :: ps) k v = p :: jsSet ps k v := by simp [jsSet, hp]
      rw [h1, h2]
      simp only [jsSize, List.length_cons] at ih ⊢
      rw [ih]
      by_cases hh : jsHas ps k = true
      · simp [hh]
      · simp [hh]

theorem jsGet_jsDelete_self {m : List (α × β)} {k : α}
    (hnd : (m.map Prod.fst).Nodup) : jsGet (jsDelete m k) k = none := by
  induction m with
  | nil => simp [jsDelete, jsGet]
  | cons p ps ih =>
    simp only [List.map_cons, List.nodup_cons] at hnd
    by_cases hp : p.1 = k
    · simp only [jsDelete, if_pos hp]
      cases hh : jsHas ps k with
      | false => exact jsGet_none_of_has_false hh
      | true => exact absurd (mem_keys_of_jsHas hh) (hp ▸ hnd.1)
    · simp [jsDelete, hp, jsGet, ih hnd.2]

theorem jsGet_jsDelete_ne (m : List (α × β)) {k k' : α} (h : ¬ k' = k) :
    jsGet (jsDelete m k) k' = jsGet m k' := by
  have h2 : ¬ k = k' := fun hh => h hh.symm
  induction m with
  | nil => simp [jsDelete, jsGet]
  | cons p ps ih =>
    by_cases hp : p.1 = k
    · simp [jsDelete, hp, jsGet, h2]
    · by_cases hp' : p.1 = k'
      · simp [jsDelete, hp, jsGet, hp', h, h2]
      · simp [jsDelete, hp, jsGet, hp', h, h2, ih]

theorem jsGet_of_mem_nodup {m : List (α × β)} {k : α} {v : β}
    (hmem : (k, v) ∈ m) (hnd : (m.map Prod.fst).Nodup) :
    jsGet m k = some v := by
  induction m with
  | nil => simp at hmem
  | cons p ps ih =>
    simp only [List.map_cons, List.nodup_cons] at hnd
    rcases List.mem_cons.mp hmem with hh | ht
    · rw [← hh]
      simp [jsGet]
    · have hp : ¬ p.1 = k := by
        intro hpk
        exact hnd.1 (by simpa [hpk] using List.mem_map_of_mem Prod.fst ht)
      simp only [jsGet, if_neg hp]
      exact ih ht hnd.2

end MapLemmas

section SortLemmas

theorem insertDesc_perm (p : Player) (l : List Player) :
    List.Perm (insertDesc p l) (p :: l) := by
  induction l with
  | nil => exact List.Perm.refl _
  | cons q qs ih =>
    by_cases hq : p.score < q.score
    · simp only [insertDesc, if_pos hq]
      exact (ih.cons q).trans (List.Perm.swap p q qs)
    · simp only [insertDesc, if_neg hq]
      exact List.Perm.refl _

theorem sortDesc_perm (l : List Player) : List.Perm (sortDesc l) l := by
  induction l with
  | nil => exact List.Perm.refl _
  | cons p ps ih =>
    simp only [sortDesc]
    exact (insertDesc_perm p (sortDesc ps)).trans (ih.cons p)

theorem mem_insertDesc {p x : Player} {l : List Player} :
    x ∈ insertDesc p l ↔ x = p ∨ x ∈ l := by
  rw [(insertDesc_perm p l).mem_iff]
  simp

theorem insertDesc_pairwise {p : Player} {l : List Player}
    (h : List.Pairwise (fun a b => b.score ≤ a.score) l) :
    List.Pairwise (fun a b => b.score ≤ a.score) (insertDesc p l) := by
  induction l with
  | nil => simp [insertDesc]
  | cons q qs ih =>
    rcases List.pairwise_cons.mp h with ⟨hq, hqs⟩
    by_cases hlt : p.score < q.score
    · simp only [insertDesc, if_pos hlt]
      refine List.pairwise_cons.mpr ⟨?_, ih hqs⟩
      intro x hx
      rcases mem_insertDesc.mp hx with rfl | hmem
      · exact le_of_lt hlt
      · exact hq x hmem
    · simp only [insertDesc, if_neg hlt]
      refine List.pairwise_cons.mpr ⟨?_, h⟩
      intro x hx
      rcases List.mem_cons.mp hx with rfl | hmem
      · exact le_of_not_lt hlt
      · exact le_trans (hq x hmem) (le_of_not_lt hlt)

theorem sortDesc_pairwise (l : List Player) :
    List.Pairwise (fun a b => b.score ≤ a.score) (sortDesc l) := by
  induction l with
  | nil => simp [sortDesc]
  | cons p ps ih =>
    simp only [sortDesc]
    exact insertDesc_pairwise ih

theorem insertDesc_filter (p : Player) (l : List Player) (s : Nat) :
    (insertDesc p l).filter (fun x => x.score = s) =
      if p.score = s then p :: l.filter (fun x => x.score = s)
      else l.filter (fun x => x.score = s) := by
  induction l with
  | nil =>
    simp only [insertDesc, List.filter]
    by_cases hp : p.score = s
    · simp [hp]
    · simp [hp]
  | cons q qs ih =>
    by_cases hlt : p.score < q.score
    · simp only [insertDesc, if_pos hlt]
      by_cases hq : q.score = s
      · by_cases hp : p.score = s
        · exact absurd (hp.trans hq.symm) (ne_of_lt hlt)
        · simp [List.filter_cons, hq, hp, ih]
      · simp [List.filter_cons, hq, ih]
    · simp only [insertDesc, if_neg hlt]
      by_cases hp : p.score = s
      · simp [List.filter_cons, hp]
      · simp [List.filter_cons, hp]

theorem sortDesc_filter (l : List Player) (s : Nat) :
    (sortDesc l).filter (fun x => x.score = s) =
      l.filter (fun x => x.score = s) := by
  induction l with
  | nil => simp [sortDesc]
  | cons p ps ih =>
    simp only [sortDesc]
    rw [insertDesc_filter]
    by_cases hp : p.score = s
    · simp [List.filter_cons, hp, ih]
    · simp [List.filter_cons, hp, ih]

end SortLemmas

section PointsLemmas

theorem awardedPoints_true_eq (e : Int) :
    awardedPoints true e = 100 + (15000 - e).toNat / 100 := by
  unfold awardedPoints
  rw [if_pos rfl, Int.floor_toNat]
  have hmax : max 0 (15000 - (e : ℚ)) = (((15000 - e).toNat : ℕ) : ℚ) := by
    have h1 : ((15000 - e : ℤ) : ℚ) = 15000 - (e : ℚ) := by push_cast; ring
    rw [← h1,
      show (((15000 - e).toNat : ℕ) : ℚ) = (((15000 - e).toNat : ℤ) : ℚ) by push_cast; ring,
      Int.toNat_eq_max, Int.cast_max]
    simp [max_comm]
  rw [hmax]
  have hdiv : (((15000 - e).toNat : ℕ) : ℚ) / 1000 * 10 =
      (((15000 - e).toNat : ℕ) : ℚ) / 100 := by
    field_simp
    ring
  rw [hdiv, show (100 : ℚ) + (((15000 - e).toNat : ℕ) : ℚ) / 100 =
      (((15000 - e).toNat : ℕ) : ℚ) / 100 + ((100 : ℕ) : ℚ) by push_cast; ring,
    Nat.floor_add_nat (by positivity), Nat.floor_div_ofNat, Nat.floor_natCast]
  omega

theorem awardedPoints_false_eq (e : Int) : awardedPoints false e = 0 := rfl

end PointsLemmas




/-- C1: for a `submit_answer` that finds a room with a live question,
correctness is exact string equality of the submitted answer with the
question's stored answer; with `elapsed = now - questionStartTime`, the
awarded points are `floor(100 + max(0, 15000 - elapsed)/1000 * 10)` when
correct — equivalently `100 + (15000 - elapsed).toNat / 100`, hence 240 at
elapsed = 1000 ms and 100 at elapsed ≥ 15000 ms — and 0 when incorrect; the
submitter's score grows by exactly the points when correct and is unchanged
otherwise; and the `{answer, correct, points}` record is stored in
`room.answers` under the player's id, overwriting any prior record. -/
theorem submitAnswer_scoring
    (rooms : Registry) (socketId playerId answer : String) (now : Nat)
    (roomCode : String) (room : Room) (question : Question) (player : Player)
    (t0 : Nat)
    (hfind : findPlayerRoom rooms playerId = some (roomCode, room))
    (hq : room.currentQuestion = some question)
    (hp : jsGet room.players playerId = some player)
    (ht : room.questionStartTime = some t0) :
    ∃ room2,
      jsGet (submitAnswer rooms socketId playerId answer now).1 roomCode =
        some room2 ∧
      jsGet room2.answers playerId = some
        { answer := answer
          correct := decide (answer = question.a)
          points := if answer = question.a
            then 100 + (15000 - ((now : Int) - t0)).toNat / 100 else 0 } ∧
      (∃ p2, jsGet room2.players playerId = some p2 ∧
        p2.score = if answer = question.a
          then player.score + (100 + (15000 - ((now : Int) - t0)).toNat / 100)
          else player.score) ∧
      ((now : Int) - t0 = 1000 → answer = question.a →
        jsGet room2.answers playerId = some
          { answer := answer, correct := true, points := 240 }) ∧
      ((15000 : Int) ≤ (now : Int) - t0 → answer = question.a →
        jsGet room2.answers playerId = some
          { answer := answer, correct := true, points := 100 }) := by
  simp only [submitAnswer, hfind, hq, hp, ht, Option.getD_some]
  by_cases hc : answer = question.a
  · have hcb : decide (answer = question.a) = true := by simp [hc]
    refine ⟨_, jsGet_jsSet_self _ _ _, ?_, ?_, ?_, ?_⟩
    · simp only [hcb, ite_true]
      rw [jsGet_jsSet_self, awardedPoints_true_eq]
      simp [hc]
    · simp only [hcb, ite_true]
      refine ⟨_, jsGet_jsSet_self _ _ _, ?_⟩
      simp [hc, awardedPoints_true_eq]
    · intro h1000 _
      simp only [hcb, ite_true]
      rw [jsGet_jsSet_self, awardedPoints_true_eq, h1000]
      simp [hc]
    · intro h15000 _
      simp only [hcb, ite_true]
      rw [jsGet_jsSet_self, awardedPoints_true_eq]
      have hz : (15000 - ((now : Int) - t0)).toNat = 0 := by omega
      rw [hz]
  · have hcb : decide (answer = question.a) = false := by simp [hc]
    refine ⟨_, jsGet_jsSet_self _ _ _, ?_, ?_, ?_, ?_⟩
    · simp only [hcb]
      rw [jsGet_jsSet_self]
      simp [hc, awardedPoints_false_eq]
    · refine ⟨player, ?_, ?_⟩
      · simp only [hcb]
        simpa using hp
      · simp [hc]
    · intro _ hcc
      exact absurd hcc hc
    · intro _ hcc
      exact absurd hcc hc

/-- Witness for C1 at a concrete input: player one answers correctly 1000 ms
after the question was stamped, scoring 240. -/
theorem submitAnswer_scoring_witness :
    ∃ room2,
      jsGet (submitAnswer regMain sockP1 pidOne ansRight 6000).1 codeMain =
        some room2 ∧
      jsGet room2.answers pidOne = some
        { answer := ansRight
          correct := decide (ansRight = qMain.a)
          points := if ansRight = qMain.a
            then 100 + (15000 - ((6000 : Int) - (5000 : Nat))).toNat / 100 else 0 } ∧
      (∃ p2, jsGet room2.players pidOne = some p2 ∧
        p2.score = if ansRight = qMain.a
          then playerOne.score + (100 + (15000 - ((6000 : Int) - (5000 : Nat))).toNat / 100)
          else playerOne.score) ∧
      ((6000 : Int) - (5000 : Nat) = 1000 → ansRight = qMain.a →
        jsGet room2.answers pidOne = some
          { answer := ansRight, correct := true, points := 240 }) ∧
      ((15000 : Int) ≤ (6000 : Int) - (5000 : Nat) → ansRight = qMain.a →
        jsGet room2.answers pidOne = some
          { answer := ansRight, correct := true, points := 100 }) :=
  submitAnswer_scoring regMain sockP1 pidOne ansRight 6000 codeMain roomMain
    qMain playerOne 5000 (by decide) (by decide) (by decide) (by decide)

/-- C2: for a `submit_answer` that is not a no-op, a delayed (3000 ms)
`nextQuestion` advance is scheduled if and only if the submitter is the
buzzed player or, after recording this submission, `answers.size` equals
`players.size` (the answer-map size grows by one exactly when the player had
no prior record); no other timers are produced by the handler. -/
theorem submitAnswer_advance_trigger
    (rooms : Registry) (socketId playerId answer : String) (now : Nat)
    (roomCode : String) (room : Room) (question : Question) (player : Player)
    (hfind : findPlayerRoom rooms playerId = some (roomCode, room))
    (hq : room.currentQuestion = some question)
    (hp : jsGet room.players playerId = some player) :
    ((submitAnswer rooms socketId playerId answer now).2.2 =
      if room.buzzedPlayer = some playerId ∨
         (if jsHas room.answers playerId then jsSize room.answers
            else jsSize room.answers + 1) = jsSize room.players
        then [Timer.next roomCode 3000] else []) ∧
    ((submitAnswer rooms socketId playerId answer now).2.2 ≠ [] ↔
      (room.buzzedPlayer = some playerId ∨
       (if jsHas room.answers playerId then jsSize room.answers
          else jsSize room.answers + 1) = jsSize room.players)) := by
  have hhas : jsHas room.players playerId = true := jsHas_of_jsGet hp
  have hT : (submitAnswer rooms socketId playerId answer now).2.2 =
      if room.buzzedPlayer = some playerId ∨
         (if jsHas room.answers playerId then jsSize room.answers
            else jsSize room.answers + 1) = jsSize room.players
        then [Timer.next roomCode 3000] else [] := by
    simp only [submitAnswer, hfind, hq, hp]
    by_cases hc : decide (answer = question.a) = true
    · simp only [hc, ite_true]
      rw [jsSize_jsSet, jsSize_jsSet, if_pos hhas]
    · have hcf : decide (answer = question.a) = false := by simpa using hc
      simp only [hcf]
      rw [jsSize_jsSet]
      simp
  refine ⟨hT, ?_⟩
  rw [hT]
  by_cases hcond : (room.buzzedPlayer = some playerId ∨
      (if jsHas room.answers playerId then jsSize room.answers
         else jsSize room.answers + 1) = jsSize room.players)
  · simp [hcond]
  · simp [hcond]

/-- Witness for C2 at a concrete input: the buzzed player submits, so
exactly one 3000 ms advance timer is scheduled. -/
theorem submitAnswer_advance_trigger_witness :
    ((submitAnswer regMain sockP1 pidOne ansRight 6000).2.2 =
      if roomMain.buzzedPlayer = some pidOne ∨
         (if jsHas roomMain.answers pidOne then jsSize roomMain.answers
            else jsSize roomMain.answers + 1) = jsSize roomMain.players
        then [Timer.next codeMain 3000] else []) ∧
    ((submitAnswer regMain sockP1 pidOne ansRight 6000).2.2 ≠ [] ↔
      (roomMain.buzzedPlayer = some pidOne ∨
       (if jsHas roomMain.answers pidOne then jsSize roomMain.answers
          else jsSize roomMain.answers + 1) = jsSize roomMain.players)) :=
  submitAnswer_advance_trigger regMain sockP1 pidOne ansRight 6000 codeMain
    roomMain qMain playerOne (by decide) (by decide) (by decide)

/-- C3 counterexample: a reachable trace (create, join, start, six
`nextQuestion` calls) ends in a room with `gameState = ROUND_END` whose
`currentQuestion` still holds the last dispatched question, refuting the
claim that `currentQuestion` is null after the transition to ROUND_END. -/
theorem roundEnd_currentQuestion_cex :
    (jsGet c3Reg9 codeMain).map (fun r => (r.gameState, r.currentQuestion)) =
      some (GameState.ROUND_END, some qMain) := by decide

/-- C3 (amended): the ROUND_END transition of `nextQuestion` does not clear
`currentQuestion`: advancing a room past question 5 stores it back with
`gameState = ROUND_END`, `questionNumber` incremented, and
`currentQuestion` unchanged (so still non-null whenever a question had been
dispatched), rather than null as originally claimed. -/
theorem roundEnd_keeps_currentQuestion
    (rooms : Registry) (roomCode : String) (question : Question) (now : Nat)
    (room : Room)
    (hget : jsGet rooms roomCode = some room)
    (h5 : 5 ≤ room.questionNumber) :
    ∃ room2,
      jsGet (nextQuestion rooms roomCode question now).1 roomCode = some room2 ∧
      room2.gameState = GameState.ROUND_END ∧
      room2.currentQuestion = room.currentQuestion ∧
      room2.questionNumber = room.questionNumber + 1 := by
  have hgt : 5 < room.questionNumber + 1 := by omega
  simp only [nextQuestion, hget, hgt, ite_true]
  exact ⟨_, jsGet_jsSet_self _ _ _, rfl, rfl, rfl⟩

/-- Witness for the amended C3 at a concrete input: a room at question 5
advances into ROUND_END keeping its question. -/
theorem roundEnd_keeps_currentQuestion_witness :
    ∃ room2,
      jsGet (nextQuestion regEnd codeMain qMain 9000).1 codeMain = some room2 ∧
      room2.gameState = GameState.ROUND_END ∧
      room2.currentQuestion = roomEnd.currentQuestion ∧
      room2.questionNumber = roomEnd.questionNumber + 1 :=
  roundEnd_keeps_currentQuestion regEnd codeMain qMain 9000 roomEnd
    (by decide) (by decide)

/-- C4 counterexample: in a reachable trace a player whose id is the empty
string buzzes first; a second `buzz_in` from a different player in the same
room then overwrites `buzzedPlayer` and broadcasts again, although
`buzzedPlayer` was non-null — the truthiness test `if (room.buzzedPlayer)`
does not lock on the empty string. -/
theorem buzzIn_empty_id_cex :
    (jsGet c4Reg4 codeMain).map (fun r => r.buzzedPlayer) =
      some (some pidEmpty) ∧
    (jsGet (buzzIn c4Reg4 pidTwo).1 codeMain).map (fun r => r.buzzedPlayer) =
      some (some pidTwo) ∧
    (buzzIn c4Reg4 pidTwo).2 =
      [Emit.playerBuzzed codeMain pidTwo nameB,
       Emit.playerBuzzed hostSock pidTwo nameB] := by decide

/-- C4 (amended): `buzz_in` is a silent no-op (state unchanged, nothing
emitted) iff no room contains the player or the room's `buzzedPlayer` is
TRUTHY — a non-empty string; the source tests JS truthiness rather than
non-null-ness, so only a first buzzer with a non-empty id locks the buzzer,
and then every later buzz for that question is dropped. -/
theorem buzzIn_noop_rules (rooms : Registry) (playerId : String) :
    (findPlayerRoom rooms playerId = none →
      buzzIn rooms playerId = (rooms, [])) ∧
    (∀ roomCode room, findPlayerRoom rooms playerId = some (roomCode, room) →
      truthyStr room.buzzedPlayer = true →
      buzzIn rooms playerId = (rooms, [])) ∧
    (∀ roomCode room, findPlayerRoom rooms playerId = some (roomCode, room) →
      truthyStr room.buzzedPlayer = false →
      ∃ room2, jsGet (buzzIn rooms playerId).1 roomCode = some room2 ∧
        room2.buzzedPlayer = some playerId ∧
        (¬ playerId = "" → truthyStr room2.buzzedPlayer = true)) := by
  refine ⟨?_, ?_, ?_⟩
  · intro h
    simp [buzzIn, h]
  · intro rc rm hf htr
    simp [buzzIn, hf, htr]
  · intro rc rm hf htr
    simp only [buzzIn, hf, htr, Bool.false_eq_true, if_false]
    refine ⟨_, jsGet_jsSet_self _ _ _, rfl, ?_⟩
    intro hne
    simp [truthyStr, hne]

/-- Witness for the amended C4 at a concrete input: with player one already
buzzed in (a non-empty id), a buzz from player two is a silent no-op. -/
theorem buzzIn_noop_rules_witness :
    buzzIn regMain pidTwo = (regMain, []) :=
  (buzzIn_noop_rules regMain pidTwo).2.1 codeMain roomMain
    (by decide) (by decide)

/-- C5: `nextQuestion` on an existing room increments `questionNumber`; past
5 it sets ROUND_END and emits only a leaderboard — a permutation of the
player list that is sorted by descending score with ties preserving
insertion order (stable sort) — and installs no fresh question; otherwise it
installs the supplied question, clears `buzzedPlayer` and `answers`, and
stamps `questionStartTime` with the current time. -/
theorem nextQuestion_spec
    (rooms : Registry) (roomCode : String) (question : Question) (now : Nat)
    (room : Room) (hget : jsGet rooms roomCode = some room) :
    (5 < room.questionNumber + 1 →
      ∃ room2 lb,
        nextQuestion rooms roomCode question now =
          (jsSet rooms roomCode room2, [Emit.roundEnd roomCode lb]) ∧
        room2.gameState = GameState.ROUND_END ∧
        room2.questionNumber = room.questionNumber + 1 ∧
        room2.currentQuestion = room.currentQuestion ∧
        List.Perm lb (jsValues room.players) ∧
        List.Pairwise (fun a b => b.score ≤ a.score) lb ∧
        (∀ s : Nat, lb.filter (fun p => p.score = s) =
          (jsValues room.players).filter (fun p => p.score = s))) ∧
    (room.questionNumber + 1 ≤ 5 →
      ∃ room2,
        jsGet (nextQuestion rooms roomCode question now).1 roomCode =
          some room2 ∧
        room2.questionNumber = room.questionNumber + 1 ∧
        room2.currentQuestion = some question ∧
        room2.buzzedPlayer = none ∧
        room2.answers = [] ∧
        room2.questionStartTime = some now ∧
        room2.gameState = room.gameState) := by
  constructor
  · intro h5
    simp only [nextQuestion, hget, h5, ite_true]
    refine ⟨_, _, rfl, rfl, rfl, rfl, ?_, ?_, ?_⟩
    · exact sortDesc_perm _
    · exact sortDesc_pairwise _
    · intro s
      exact sortDesc_filter _ s
  · intro hle
    have h5 : ¬ 5 < room.questionNumber + 1 := by omega
    simp only [nextQuestion, hget, h5, ite_false]
    exact ⟨_, jsGet_jsSet_self _ _ _, rfl, rfl, rfl, rfl, rfl, rfl⟩

/-- Witness for C5 at a concrete input: a room at question 5 advances into
ROUND_END and emits its stable descending leaderboard. -/
theorem nextQuestion_spec_witness :
    ∃ room2 lb,
      nextQuestion regEnd codeMain qMain 9000 =
        (jsSet regEnd codeMain room2, [Emit.roundEnd codeMain lb]) ∧
      room2.gameState = GameState.ROUND_END ∧
      room2.questionNumber = roomEnd.questionNumber + 1 ∧
      room2.currentQuestion = roomEnd.currentQuestion ∧
      List.Perm lb (jsValues roomEnd.players) ∧
      List.Pairwise (fun a b => b.score ≤ a.score) lb ∧
      (∀ s : Nat, lb.filter (fun p => p.score = s) =
        (jsValues roomEnd.players).filter (fun p => p.score = s)) :=
  (nextQuestion_spec regEnd codeMain qMain 9000 roomEnd (by decide)).1
    (by decide)

/-- C6 counterexample: with a room stored under COOL-1000 and addressed by
its host, `start_game` with the lowercase code cool-1000 fails to find the
room (error to the sender, registry unchanged, no timer), while the exact
uppercase code succeeds — so `start_game` lookup is NOT case-insensitive,
refuting the claim for that event. -/
theorem startGame_case_cex :
    startGame c6Reg hostSock codeMainLower gameTrivia =
      (c6Reg, [Emit.errorMsg hostSock msgNotAuthorized], []) ∧
    (startGame c6Reg hostSock codeMain gameTrivia).2.1 =
      [Emit.gameStarted codeMain gameTrivia] := by decide

/-- C6 (amended): `join_room` lookup is case-insensitive — the supplied code
is uppercased before the lookup, so any casing resolves to the room stored
under the uppercase code; `start_game` looks the code up exactly as supplied
(case-sensitive) and fails with an error when that exact string is not a
key, even if the uppercased code is. -/
theorem lookup_casing
    (rooms : Registry) (socketId socketId2 game : String) (d : JoinData)
    (upper : String) (room : Room)
    (hup : jsToUpper d.roomCode = upper)
    (hget : jsGet rooms upper = some room) :
    (∃ room2, jsGet (joinRoom rooms socketId d).1 upper = some room2 ∧
      jsGet room2.players d.playerId = some
        { id := d.playerId
          name := d.playerName
          avatar := if d.avatar = "" then defaultAvatar else d.avatar
          socketId := socketId
          score := 0 }) ∧
    (jsGet rooms d.roomCode = none →
      startGame rooms socketId2 d.roomCode game =
        (rooms, [Emit.errorMsg socketId2 msgNotAuthorized], [])) := by
  constructor
  · simp only [joinRoom, hup, hget]
    exact ⟨_, jsGet_jsSet_self _ _ _, jsGet_jsSet_self _ _ _⟩
  · intro hnone
    simp [startGame, hnone]

/-- Witness for the amended C6 at a concrete input: joining with the
lowercase code resolves to the uppercase room; starting with the lowercase
code errors out. -/
theorem lookup_casing_witness :
    ((∃ room2, jsGet (joinRoom c6Reg sockP1 joinOneLower).1 codeMain =
        some room2 ∧
      jsGet room2.players joinOneLower.playerId = some
        { id := joinOneLower.playerId
          name := joinOneLower.playerName
          avatar := if joinOneLower.avatar = "" then defaultAvatar
            else joinOneLower.avatar
          socketId := sockP1
          score := 0 })) ∧
    startGame c6Reg sockP2 joinOneLower.roomCode gameTrivia =
      (c6Reg, [Emit.errorMsg sockP2 msgNotAuthorized], []) :=
  ⟨(lookup_casing c6Reg sockP1 sockP2 gameTrivia joinOneLower codeMain
      (freshRoom codeMain hostSock) (by decide) (by decide)).1,
   (lookup_casing c6Reg sockP1 sockP2 gameTrivia joinOneLower codeMain
      (freshRoom codeMain hostSock) (by decide) (by decide)).2 (by decide)⟩

section DisconnectLemmas

theorem mem_of_jsGet {α β : Type} [DecidableEq α] {m : List (α × β)} {k : α}
    {v : β} (h : jsGet m k = some v) : (k, v) ∈ m := by
  induction m with
  | nil => simp [jsGet] at h
  | cons p ps ih =>
    by_cases hp : p.1 = k
    · simp only [jsGet, if_pos hp] at h
      injection h with h2
      have hpe : p = (k, v) := by
        rcases p with ⟨p1, p2⟩
        simp only at hp h2
        rw [hp, h2]
      rw [← hpe]
      exact List.mem_cons_self p ps
    · simp only [jsGet, if_neg hp] at h
      exact List.mem_cons_of_mem _ (ih h)

theorem jsGet_eq_none_of_keys {α β : Type} [DecidableEq α] {m : List (α × β)}
    {k : α} (h : ∀ e ∈ m, ¬ e.1 = k) : jsGet m k = none := by
  induction m with
  | nil => rfl
  | cons p ps ih =>
    simp only [jsGet, if_neg (h p (List.mem_cons_self p ps))]
    exact ih (fun e he => h e (List.mem_cons_of_mem _ he))

theorem filterMap_keys_sublist {α β γ : Type} (f : α × β → Option (α × γ))
    (hf : ∀ e y, f e = some y → y.1 = e.1) (m : List (α × β)) :
    List.Sublist ((m.filterMap f).map Prod.fst) (m.map Prod.fst) := by
  induction m with
  | nil => simp
  | cons p ps ih =>
    cases hfp : f p with
    | none =>
      simp only [List.filterMap_cons, hfp, List.map_cons]
      exact ih.cons _
    | some y =>
      simp only [List.filterMap_cons, hfp, List.map_cons]
      rw [hf p y hfp]
      exact ih.cons₂ _

theorem findPlayerRoom_mem {rooms : Registry} {pid roomCode : String}
    {room : Room} (h : findPlayerRoom rooms pid = some (roomCode, room)) :
    (roomCode, room) ∈ rooms ∧ jsHas room.players pid = true := by
  constructor
  · exact List.mem_of_find?_eq_some h
  · have := List.find?_some h
    simpa using this

theorem removeFirstBySocket_none {players : List (String × Player)}
    {sock : String} (h : (removeFirstBySocket players sock).2 = none) :
    (removeFirstBySocket players sock).1 = players := by
  induction players with
  | nil => rfl
  | cons p ps ih =>
    by_cases hp : p.2.socketId = sock
    · simp [removeFirstBySocket, hp] at h
    · simp only [removeFirstBySocket, if_neg hp] at h ⊢
      rw [ih h]

theorem jsHas_removeFirstBySocket {players : List (String × Player)}
    {sock pid : String}
    (h : jsHas (removeFirstBySocket players sock).1 pid = true) :
    jsHas players pid = true := by
  induction players with
  | nil => simpa [removeFirstBySocket] using h
  | cons p ps ih =>
    by_cases hp : p.2.socketId = sock
    · simp only [removeFirstBySocket, if_pos hp] at h
      simp [jsHas, h]
    · simp only [removeFirstBySocket, if_neg hp] at h
      simp only [jsHas, Bool.or_eq_true] at h ⊢
      rcases h with h1 | h2
      · exact Or.inl h1
      · exact Or.inr (ih h2)

theorem disconnect_foldl_char (sock : String) :
    ∀ (rooms : List (String × Room)) (acc : Registry × List Emit),
      List.foldl (disconnectStep sock) acc rooms =
        (acc.1 ++ rooms.filterMap (fun e =>
            if e.2.host = sock then none
            else some (e.1,
              { e.2 with players := (removeFirstBySocket e.2.players sock).1 })),
         acc.2 ++ rooms.filterMap (fun e =>
            if e.2.host = sock then some (Emit.roomClosed e.1)
            else
              match (removeFirstBySocket e.2.players sock).2 with
              | some pid => some (Emit.playerLeft e.2.host pid)
              | none => none)) := by
  intro rooms
  induction rooms with
  | nil =>
    intro acc
    simp
  | cons r rest ih =>
    intro acc
    rw [List.foldl_cons, ih]
    by_cases hh : r.2.host = sock
    · simp only [disconnectStep, if_pos hh, List.filterMap_cons, hh, ite_true]
      simp [List.append_assoc]
    · cases hrm : removeFirstBySocket r.2.players sock with
      | mk ps2 opt =>
        cases opt with
        | none =>
          have hps : ps2 = r.2.players := by
            have h0 : (removeFirstBySocket r.2.players sock).2 = none := by
              rw [hrm]
            have h1 := removeFirstBySocket_none h0
            rw [hrm] at h1
            exact h1
          simp only [disconnectStep, if_neg hh, hrm, List.filterMap_cons, hh,
            ite_false, hps]
          simp [List.append_assoc]
        | some pid =>
          simp only [disconnectStep, if_neg hh, hrm, List.filterMap_cons, hh,
            ite_false]
          simp [List.append_assoc]

theorem disconnect_char (rooms : Registry) (sock : String) :
    disconnect rooms sock =
      (rooms.filterMap (fun e =>
          if e.2.host = sock then none
          else some (e.1,
            { e.2 with players := (removeFirstBySocket e.2.players sock).1 })),
       rooms.filterMap (fun e =>
          if e.2.host = sock then some (Emit.roomClosed e.1)
          else
            match (removeFirstBySocket e.2.players sock).2 with
            | some pid => some (Emit.playerLeft e.2.host pid)
            | none => none)) := by
  rw [disconnect, disconnect_foldl_char]
  simp

end DisconnectLemmas

/-- C7: after the host's socket disconnects, the room is deleted from the
registry and a room_closed broadcast is emitted on its channel; a pending
`nextQuestion` timer for that room code then no-ops (registry unchanged,
nothing emitted), and a `submit_answer` from a former player of that room —
one who is in no other room — also no-ops, so the deleted room is never
dereferenced. -/
theorem host_disconnect_safety
    (rooms : Registry) (roomCode : String) (room : Room) (pid : String)
    (question : Question) (sock answer : String) (now now2 : Nat)
    (hmem : (roomCode, room) ∈ rooms)
    (hhost : ∀ e ∈ rooms, e.1 = roomCode → e.2.host = room.host)
    (hpid : ∀ e ∈ rooms, jsHas e.2.players pid = true → e.1 = roomCode) :
    jsGet (disconnect rooms room.host).1 roomCode = none ∧
    Emit.roomClosed roomCode ∈ (disconnect rooms room.host).2 ∧
    nextQuestion (disconnect rooms room.host).1 roomCode question now =
      ((disconnect rooms room.host).1, []) ∧
    submitAnswer (disconnect rooms room.host).1 sock pid answer now2 =
      ((disconnect rooms room.host).1, [], []) := by
  have hchar := disconnect_char rooms room.host
  have hkeys : ∀ e ∈ (disconnect rooms room.host).1, ¬ e.1 = roomCode := by
    intro e he hek
    rw [hchar] at he
    simp only at he
    rcases List.mem_filterMap.mp he with ⟨src, hsrc, hf⟩
    by_cases hh : src.2.host = room.host
    · simp [hh] at hf
    · simp only [if_neg hh] at hf
      injection hf with hf2
      apply hh
      apply hhost src hsrc
      rw [← hf2] at hek
      exact hek
  have h1 : jsGet (disconnect rooms room.host).1 roomCode = none :=
    jsGet_eq_none_of_keys hkeys
  have h2 : Emit.roomClosed roomCode ∈ (disconnect rooms room.host).2 := by
    rw [hchar]
    simp only
    exact List.mem_filterMap.mpr ⟨(roomCode, room), hmem, by simp⟩
  have hfpr : findPlayerRoom (disconnect rooms room.host).1 pid = none := by
    apply List.find?_eq_none.mpr
    intro e he
    rw [hchar] at he
    simp only at he
    rcases List.mem_filterMap.mp he with ⟨src, hsrc, hf⟩
    by_cases hh : src.2.host = room.host
    · simp [hh] at hf
    · simp only [if_neg hh] at hf
      injection hf with hf2
      intro hhas
      apply hh
      apply hhost src hsrc
      apply hpid src hsrc
      rw [← hf2] at hhas
      simp only at hhas
      exact jsHas_removeFirstBySocket (by simpa using hhas)
  refine ⟨h1, h2, ?_, ?_⟩
  · simp [nextQuestion, h1]
  · simp [submitAnswer, hfpr]

/-- Witness for C7 at a concrete input: the host of the one-room registry
disconnects; the room is gone, the broadcast is sent, and a pending advance
timer and a late answer from player one are no-ops. -/
theorem host_disconnect_safety_witness :
    jsGet (disconnect regMain roomMain.host).1 codeMain = none ∧
    Emit.roomClosed codeMain ∈ (disconnect regMain roomMain.host).2 ∧
    nextQuestion (disconnect regMain roomMain.host).1 codeMain qMain 7000 =
      ((disconnect regMain roomMain.host).1, []) ∧
    submitAnswer (disconnect regMain roomMain.host).1 sockP1 pidOne ansRight
      8000 = ((disconnect regMain roomMain.host).1, [], []) :=
  host_disconnect_safety regMain codeMain roomMain pidOne qMain sockP1
    ansRight 7000 8000 (by decide) (by decide) (by decide)

/-- C8 counterexample: in a reachable trace one socket is a player in two
rooms; its disconnect removes the matching player from BOTH rooms — the
second room (in registry iteration order) does not keep its players, the
claim that only the first matching room is affected is false. -/
theorem disconnect_second_room_cex :
    (jsGet c8Reg4 codeSecond).map (fun r => jsSize r.players) = some 1 ∧
    (jsGet (disconnect c8Reg4 sockP1).1 codeSecond).map
      (fun r => jsSize r.players) = some 0 := by decide

/-- C8 (amended): a disconnect is processed against EVERY room in the
registry (the source's outer loop has no break): each room hosted by the
closing socket is deleted with a room_closed broadcast; each other room
loses its FIRST player (insertion order) whose connection matches, with a
player_left notification to that room's host; a room with no matching player
is stored back unchanged. -/
theorem disconnect_per_room
    (rooms : Registry) (sock : String)
    (hnd : (rooms.map Prod.fst).Nodup) :
    (∀ code room, jsGet rooms code = some room → room.host = sock →
      jsGet (disconnect rooms sock).1 code = none ∧
      Emit.roomClosed code ∈ (disconnect rooms sock).2) ∧
    (∀ code room, jsGet rooms code = some room → ¬ room.host = sock →
      jsGet (disconnect rooms sock).1 code =
        some { room with
          players := (removeFirstBySocket room.players sock).1 } ∧
      (∀ pid, (removeFirstBySocket room.players sock).2 = some pid →
        Emit.playerLeft room.host pid ∈ (disconnect rooms sock).2) ∧
      ((removeFirstBySocket room.players sock).2 = none →
        jsGet (disconnect rooms sock).1 code = some room)) := by
  have hchar := disconnect_char rooms sock
  constructor
  · intro code room hg hh
    constructor
    · apply jsGet_eq_none_of_keys
      intro e he hek
      rw [hchar] at he
      simp only at he
      rcases List.mem_filterMap.mp he with ⟨src, hsrc, hf⟩
      by_cases hsh : src.2.host = sock
      · simp [hsh] at hf
      · simp only [if_neg hsh] at hf
        injection hf with hf2
        apply hsh
        have hsrc2 : (code, src.2) ∈ rooms := by
          have : src = (code, src.2) := by
            rcases src with ⟨s1, s2⟩
            simp only
            rw [← hf2] at hek
            simp only at hek
            rw [hek]
          rw [← this]
          exact hsrc
        have := jsGet_of_mem_nodup hsrc2 hnd
        rw [this] at hg
        injection hg with hg2
        rw [hg2, hh]
    · rw [hchar]
      simp only
      exact List.mem_filterMap.mpr ⟨(code, room), mem_of_jsGet hg, by simp [hh]⟩
  · intro code room hg hne
    have hfkey : ∀ (e : String × Room) (y : String × Room),
        (if e.2.host = sock then none
         else some (e.1,
           { e.2 with
             players := (removeFirstBySocket e.2.players sock).1 })) = some y →
        y.1 = e.1 := by
      intro e y hf
      by_cases hsh : e.2.host = sock
      · simp [hsh] at hf
      · simp only [if_neg hsh] at hf
        injection hf with hf2
        rw [← hf2]
    have hndL : (((disconnect rooms sock).1).map Prod.fst).Nodup := by
      rw [hchar]
      simp only
      exact (filterMap_keys_sublist _ hfkey rooms).nodup hnd
    have hmemL : (code, { room with
        players := (removeFirstBySocket room.players sock).1 }) ∈
        (disconnect rooms sock).1 := by
      rw [hchar]
      simp only
      exact List.mem_filterMap.mpr ⟨(code, room), mem_of_jsGet hg, by simp [hne]⟩
    have hgL := jsGet_of_mem_nodup hmemL hndL
    refine ⟨hgL, ?_, ?_⟩
    · intro pid hpid
      rw [hchar]
      simp only
      refine List.mem_filterMap.mpr ⟨(code, room), mem_of_jsGet hg, ?_⟩
      simp [hne, hpid]
    · intro hnone
      rw [hgL, removeFirstBySocket_none hnone]

/-- Witness for the amended C8 at a concrete input: disconnecting the shared
socket removes the matching player from the second room too. -/
theorem disconnect_per_room_witness :
    jsGet (disconnect c8Reg4 sockP1).1 codeSecond =
      some { roomC8second with
        players := (removeFirstBySocket roomC8second.players sockP1).1 } :=
  ((disconnect_per_room c8Reg4 sockP1 (by decide)).2 codeSecond roomC8second
    (by decide) (by decide)).1

/-- C9 counterexample: in a reachable trace player one answers correctly and
holds a score of 240; a `join_room` re-using the same playerId then
overwrites the player record with a fresh score of 0 — a strict mid-game
decrease, refuting monotonicity of the score across join_room re-joins. -/
theorem score_rejoin_reset_cex :
    (jsGet c9Reg5 codeMain).map
      (fun r => (jsGet r.players pidOne).map (fun p => p.score)) =
      some (some 240) ∧
    (jsGet c9Reg6 codeMain).map
      (fun r => (jsGet r.players pidOne).map (fun p => p.score)) =
      some (some 0) := by
  have h4 : c9Reg4 = [(codeMain, roomC9)] := by decide
  have hA : awardedPoints true 1000 = 240 := by
    rw [awardedPoints_true_eq]
    decide
  have h5a : c9Reg5 =
      (submitAnswer [(codeMain, roomC9)] sockP1 pidOne ansRight 6000).1 := by
    rw [c9Reg5, h4]
  have h5b : c9Reg5 = [(codeMain, roomC9after)] := by
    rw [h5a]
    norm_num [submitAnswer, findPlayerRoom, jsHas, jsGet, jsSet, jsSize,
      roomC9, roomC9after, playerOneJ, playerOneJ240, qMain, pidOne, ansRight,
      sockP1, codeMain, hostSock, nameA, avA, gameTrivia, hA]
  refine ⟨?_, ?_⟩
  · rw [h5b]
    decide
  · rw [c9Reg6, h5b]
    decide

/-- C9 (amended): within a game, `submit_answer` never decreases any
player's score — a correct answer adds the (nonnegative) points to the
submitter and no other player record changes — but `join_room` re-using an
existing playerId overwrites the player record with a fresh score of 0,
which can strictly decrease a score mid-game: the claim's inclusion of
re-joins fails. -/
theorem score_monotone_submit
    (rooms : Registry) (socketId playerId answer : String) (now : Nat)
    (hnd : (rooms.map Prod.fst).Nodup) :
    (∀ code room pid2 p2,
      jsGet rooms code = some room → jsGet room.players pid2 = some p2 →
      ∃ room2 p3,
        jsGet (submitAnswer rooms socketId playerId answer now).1 code =
          some room2 ∧
        jsGet room2.players pid2 = some p3 ∧ p2.score ≤ p3.score) ∧
    (∀ (d : JoinData) (room : Room),
      jsGet rooms (jsToUpper d.roomCode) = some room →
      ∃ room2 p3,
        jsGet (joinRoom rooms socketId d).1 (jsToUpper d.roomCode) =
          some room2 ∧
        jsGet room2.players d.playerId = some p3 ∧ p3.score = 0) := by
  constructor
  · intro code room pid2 p2 hg hp2
    cases hfr : findPlayerRoom rooms playerId with
    | none =>
      refine ⟨room, p2, ?_, hp2, le_refl _⟩
      simp [submitAnswer, hfr, hg]
    | some rcrm =>
      obtain ⟨rc, rm⟩ := rcrm
      cases hq : rm.currentQuestion with
      | none =>
        refine ⟨room, p2, ?_, hp2, le_refl _⟩
        simp [submitAnswer, hfr, hq, hg]
      | some q =>
        cases hgp : jsGet rm.players playerId with
        | none =>
          refine ⟨room, p2, ?_, hp2, le_refl _⟩
          simp [submitAnswer, hfr, hq, hgp, hg]
        | some pl =>
          simp only [submitAnswer, hfr, hq, hgp]
          by_cases hcode : code = rc
          · subst hcode
            have hrm : rm = room := by
              have hm1 : (code, rm) ∈ rooms := (findPlayerRoom_mem hfr).1
              have hm2 : jsGet rooms code = some rm := jsGet_of_mem_nodup hm1 hnd
              rw [hm2] at hg
              injection hg
            subst hrm
            by_cases hc : decide (answer = q.a) = true
            · simp only [hc, ite_true]
              by_cases hpid : pid2 = playerId
              · subst hpid
                refine ⟨_, _, jsGet_jsSet_self _ _ _,
                  jsGet_jsSet_self _ _ _, ?_⟩
                rw [hgp] at hp2
                injection hp2 with hpl
                rw [← hpl]
                exact Nat.le_add_right _ _
              · refine ⟨_, p2, jsGet_jsSet_self _ _ _, ?_, le_refl _⟩
                rw [jsGet_jsSet_ne _ _ hpid]
                exact hp2
            · have hcf : decide (answer = q.a) = false := by simpa using hc
              simp only [hcf]
              refine ⟨_, p2, jsGet_jsSet_self _ _ _, ?_, le_refl _⟩
              simpa using hp2
          · refine ⟨room, p2, ?_, hp2, le_refl _⟩
            rw [jsGet_jsSet_ne _ _ hcode]
            exact hg
  · intro d room hg
    simp only [joinRoom, hg]
    exact ⟨_, _, jsGet_jsSet_self _ _ _, jsGet_jsSet_self _ _ _, rfl⟩

/-- Witness for the amended C9 at a concrete input: player one submits the
correct answer; player two's stored score does not decrease. -/
theorem score_monotone_submit_witness :
    ∃ room2 p3,
      jsGet (submitAnswer regMain sockP1 pidOne ansRight 6000).1 codeMain =
        some room2 ∧
      jsGet room2.players pidTwo = some p3 ∧ playerTwo.score ≤ p3.score :=
  (score_monotone_submit regMain sockP1 pidOne ansRight 6000 (by decide)).1
    codeMain roomMain pidTwo playerTwo (by decide) (by decide)

/-- C10 (implicit): `createRoom` stores a fresh empty LOBBY room under the
supplied (randomly generated) code unconditionally — there is no collision
check or retry: when the code already keys an existing room the entry is
replaced in place (registry size unchanged, lookup now yields the fresh
room), so the prior room is no longer reachable through the registry. -/
theorem createRoom_overwrites
    (rooms : Registry) (code hostSocketId : String) (old : Room)
    (hold : jsGet rooms code = some old) :
    (createRoom rooms code hostSocketId).2 = freshRoom code hostSocketId ∧
    jsGet (createRoom rooms code hostSocketId).1 code =
      some (freshRoom code hostSocketId) ∧
    jsSize (createRoom rooms code hostSocketId).1 = jsSize rooms ∧
    (freshRoom code hostSocketId).players = [] ∧
    (freshRoom code hostSocketId).gameState = GameState.LOBBY := by
  refine ⟨rfl, jsGet_jsSet_self _ _ _, ?_, rfl, rfl⟩
  rw [show (createRoom rooms code hostSocketId).1 =
      jsSet rooms code (freshRoom code hostSocketId) from rfl]
  rw [jsSize_jsSet, if_pos (jsHas_of_jsGet hold)]

/-- Witness for C10 at a concrete input: creating a room under the already
used code COOL-1000 silently replaces the stored mid-game room. -/
theorem createRoom_overwrites_witness :
    (createRoom regMain codeMain hostSock2).2 = freshRoom codeMain hostSock2 ∧
    jsGet (createRoom regMain codeMain hostSock2).1 codeMain =
      some (freshRoom codeMain hostSock2) ∧
    jsSize (createRoom regMain codeMain hostSock2).1 = jsSize regMain ∧
    (freshRoom codeMain hostSock2).players = [] ∧
    (freshRoom codeMain hostSock2).gameState = GameState.LOBBY :=
  createRoom_overwrites regMain codeMain hostSock2 roomMain (by decide)

end GameNight
